import Mathlib

/-!
Verification of the sidekick editor-coordination layer.

This file gives a shallow embedding of the multi-instance coordination code of
the sidekick repository (src/handler.rs, src/hook.rs, src/utils.rs,
src/action.rs, src/action/vscode.rs, src/action/vscode/connection.rs,
src/action/vscode/rpc.rs, src/action/neovim.rs, src/action/neovim/connection.rs)
and proves the spec claims about it.

Modelling conventions:
- a discovered address is represented by the outcome of connecting to it:
  `none` for a failed connect, `some c` for a connected client `c`;
- a connected client is represented by the responses its calls return for the
  one file under discussion (`Instance` below), since every claim is about a
  single top-level invocation on a fixed file;
- Rust `Result` becomes `Except Unit` (the error payload is irrelevant to
  control flow everywhere in the folds);
- the step closures handed to `try_fold_instances` take the accumulator by
  mutable reference in Rust and return `Result<bool>`; both in-repo closures
  (vscode.rs lines 29-37, neovim.rs lines 106-119) perform the fallible client
  call before touching the accumulator, so an erroring step observes and makes
  no accumulator change; the pure embedding therefore types the step as
  `T → α → Except Unit (T × Bool)`.
-/

/-- BufferStatus from src/action.rs lines 33-37: one instance's snapshot for one
file at one moment. -/
structure BufferStatus where
  is_current : Bool
  has_unsaved_changes : Bool
deriving DecidableEq, Repr

/-- EditorContext from src/action.rs lines 40-46: one visual-selection
snapshot. -/
structure EditorContext where
  file_path : String
  start_line : Nat
  end_line : Nat
  content : String
deriving DecidableEq, Repr

deriving instance DecidableEq for Except

/-- Model of one reachable editor instance: the outcomes of its capability
calls for the file under discussion. `status` is the result of the
buffer-status call, `selection` the result of the get-visual-selection call. -/
structure Instance where
  status : Except Unit BufferStatus
  selection : Except Unit (Option EditorContext)
deriving DecidableEq, Repr

/-- Fold over successfully connected instances with early-exit support, from
src/action/vscode/connection.rs lines 27-45 and the identical
src/action/neovim/connection.rs lines 32-50 (NeovimAction in
src/action/neovim.rs lines 51-73 carries the same logic as an explicit loop).
The list element `none` models an address whose connect failed (filtered out by
`filter_map(|path| connect(path).ok())` before the fold); `anyP` is the
`any_processed` flag. -/
def try_fold_go {α T : Type} (f : T → α → Except Unit (T × Bool)) :
    List (Option α) → T → Bool → Option T
  | [], acc, anyP => if anyP then some acc else none
  | none :: rest, acc, anyP => try_fold_go f rest acc anyP
  | some client :: rest, acc, anyP =>
    match f acc client with
    | Except.error _ => try_fold_go f rest acc anyP
    | Except.ok (acc2, true) => try_fold_go f rest acc2 true
    | Except.ok (acc2, false) => some acc2

/-- try_fold_instances from src/action/vscode/connection.rs line 27 /
src/action/neovim/connection.rs line 32: returns `none` if no instance was
processed, otherwise the accumulated value. -/
def try_fold_instances {α T : Type} (conns : List (Option α)) (init : T)
    (f : T → α → Except Unit (T × Bool)) : Option T :=
  try_fold_go f conns init false

/-- Instrumented variant of `try_fold_go` that additionally returns, in order,
the connected clients on which the step function was invoked.  Used to state
the temporal claim that early exit stops querying further addresses. -/
def try_fold_go_trace {α T : Type} (f : T → α → Except Unit (T × Bool)) :
    List (Option α) → T → Bool → Option T × List α
  | [], acc, anyP => (if anyP then some acc else none, [])
  | none :: rest, acc, anyP => try_fold_go_trace f rest acc anyP
  | some client :: rest, acc, anyP =>
    match f acc client with
    | Except.error _ =>
      let r := try_fold_go_trace f rest acc anyP
      (r.1, client :: r.2)
    | Except.ok (acc2, true) =>
      let r := try_fold_go_trace f rest acc2 true
      (r.1, client :: r.2)
    | Except.ok (acc2, false) => (some acc2, [client])

/-- collect_all from src/action/vscode/connection.rs lines 48-57 and
src/action/neovim/connection.rs lines 53-62: invoke the op on every reachable
instance, keep the `some` payloads in order, silently drop connect failures,
call failures and explicit `none` results. -/
def collect_all {α β : Type} (conns : List (Option α))
    (f : α → Except Unit (Option β)) : List β :=
  (conns.filterMap id).filterMap (fun client =>
    match f client with
    | Except.ok v => v
    | Except.error _ => none)

/-- Per-instance step of buffer-status aggregation, from
src/action/vscode.rs lines 29-37 (and identically src/action/neovim.rs lines
106-119): query the instance, OR both fields into the accumulator, continue
only while no unsaved changes have been seen. -/
def buffer_status_step (acc : Bool × Bool) (inst : Instance) :
    Except Unit ((Bool × Bool) × Bool) :=
  match inst.status with
  | Except.error e => Except.error e
  | Except.ok status =>
    let is_current_acc := acc.1 || status.is_current
    let unsaved_acc := acc.2 || status.has_unsaved_changes
    Except.ok ((is_current_acc, unsaved_acc), !unsaved_acc)

/-- buffer_status of one editor kind, from src/action/vscode.rs lines 25-45 and
src/action/neovim.rs lines 104-126: early-exit fold over the kind's instances,
defaulting to all-false when no instance was processed. -/
def editor_buffer_status (conns : List (Option Instance)) : BufferStatus :=
  let status := (try_fold_instances conns (false, false) buffer_status_step).getD
    (false, false)
  { is_current := status.1, has_unsaved_changes := status.2 }

/-- get_visual_selections of one editor kind, from src/action/vscode.rs lines
73-83 and src/action/neovim/connection.rs collect_all with
get_visual_selection (src/action/neovim/buffer.rs lines 64-80). -/
def editor_get_visual_selections (conns : List (Option Instance)) :
    List EditorContext :=
  collect_all conns (fun inst => inst.selection)

/-- EditorActions from src/handler.rs lines 38-41: the per-kind action is
present exactly when discovery found at least one socket of that kind
(src/handler.rs lines 152-168). -/
structure EditorActions where
  neovim : Option (List (Option Instance))
  vscode : Option (List (Option Instance))
deriving DecidableEq, Repr

/-- has_any from src/handler.rs lines 45-47. -/
def EditorActions.has_any (a : EditorActions) : Bool :=
  a.neovim.isSome || a.vscode.isSome

/-- Combined buffer status from src/handler.rs lines 50-73: OR each present
kind's aggregated status into the all-false initial value.  Both per-kind
buffer_status implementations always return `Ok`, so the `let Ok(status)`
binding in the source always matches. -/
def EditorActions.buffer_status (a : EditorActions) : BufferStatus :=
  let combined : BufferStatus :=
    { is_current := false, has_unsaved_changes := false }
  let combined : BufferStatus :=
    match a.neovim with
    | some conns =>
      let status := editor_buffer_status conns
      { is_current := combined.is_current || status.is_current,
        has_unsaved_changes :=
          combined.has_unsaved_changes || status.has_unsaved_changes }
    | none => combined
  match a.vscode with
  | some conns =>
    let status := editor_buffer_status conns
    { is_current := combined.is_current || status.is_current,
      has_unsaved_changes :=
        combined.has_unsaved_changes || status.has_unsaved_changes }
  | none => combined

/-- get_visual_selections from src/handler.rs lines 106-122: append the
selections of each present kind, Neovim first. -/
def EditorActions.get_visual_selections (a : EditorActions) :
    List EditorContext :=
  (match a.neovim with
   | some conns => editor_get_visual_selections conns
   | none => []) ++
  (match a.vscode with
   | some conns => editor_get_visual_selections conns
   | none => [])

/-- PermissionDecision from src/hook.rs lines 92-96. -/
inductive PermissionDecision where
  | allow
  | deny
  | ask
deriving DecidableEq, Repr

/-- HookSpecificOutput from src/hook.rs lines 101-111. -/
structure HookSpecificOutput where
  hook_event_name : String
  permission_decision : Option PermissionDecision
  permission_decision_reason : Option String
  additional_context : Option String
deriving DecidableEq, Repr

/-- HookOutput from src/hook.rs lines 116-132. -/
structure HookOutput where
  continue_execution : Option Bool
  stop_reason : Option String
  suppress_output : Option Bool
  system_message : Option String
  decision : Option String
  reason : Option String
  hook_specific_output : Option HookSpecificOutput
deriving DecidableEq, Repr

/-- HookOutput::new from src/hook.rs lines 136-146: every field absent. -/
def HookOutput.new : HookOutput :=
  { continue_execution := none, stop_reason := none, suppress_output := none,
    system_message := none, decision := none, reason := none,
    hook_specific_output := none }

/-- with_permission_decision from src/hook.rs lines 177-189. -/
def HookOutput.with_permission_decision (o : HookOutput)
    (d : PermissionDecision) (r : Option String) : HookOutput :=
  { o with
    hook_specific_output :=
      some { hook_event_name := "PreToolUse", permission_decision := some d,
             permission_decision_reason := r, additional_context := none } }

/-- Modelled from the spec: `HookOutput::with_additional_context` is invoked by
src/handler.rs line 213 but its definition is missing from the provided
sources.  Per spec sections 4.5 and 6 it attaches the given text as the
additional-context payload of the decision output. -/
def HookOutput.with_additional_context (o : HookOutput) (ctx : String) :
    HookOutput :=
  { o with
    hook_specific_output :=
      some { hook_event_name := "UserPromptSubmit", permission_decision := none,
             permission_decision_reason := none,
             additional_context := some ctx } }

/-- FileToolInput from src/hook.rs lines 67-75. -/
structure FileToolInput where
  file_path : String
  content : Option String
  old_string : Option String
  new_string : Option String
deriving DecidableEq, Repr

/-- BashToolInput from src/hook.rs lines 79-82. -/
structure BashToolInput where
  command : String
  description : String
deriving DecidableEq, Repr

/-- Tool from src/hook.rs lines 57-63. -/
inductive Tool where
  | Read (input : FileToolInput)
  | Write (input : FileToolInput)
  | Edit (input : FileToolInput)
  | MultiEdit (input : FileToolInput)
  | Bash (input : BashToolInput)
deriving DecidableEq, Repr

/-- check_buffer_modifications from src/handler.rs lines 217-234.  The
best-effort send_message side effect on the deny path (line 225) does not
influence the returned output and is not modelled. -/
def check_buffer_modifications (actions : EditorActions) : HookOutput :=
  if !actions.has_any then HookOutput.new
  else
    let status := actions.buffer_status
    if status.has_unsaved_changes && status.is_current then
      HookOutput.new.with_permission_decision PermissionDecision.deny
        (some "The file is being edited by the user, try again later")
    else HookOutput.new

/-- handle_pre_tool_use from src/handler.rs lines 171-178: only the
file-mutating tools are checked. -/
def handle_pre_tool_use (tool : Tool) (actions : EditorActions) : HookOutput :=
  match tool with
  | Tool.Edit _ => check_buffer_modifications actions
  | Tool.Write _ => check_buffer_modifications actions
  | Tool.MultiEdit _ => check_buffer_modifications actions
  | _ => HookOutput.new

/-- Rendering of one selection, from src/handler.rs lines 204-209. -/
def format_selection (ctx : EditorContext) : String :=
  "[Selected from " ++ ctx.file_path ++ ":" ++ toString ctx.start_line ++ "-" ++
    toString ctx.end_line ++ "]\n```\n" ++ ctx.content ++ "\n```"

/-- handle_user_prompt_submit from src/handler.rs lines 191-214. -/
def handle_user_prompt_submit (actions : EditorActions) : HookOutput :=
  if !actions.has_any then HookOutput.new
  else
    let selections := actions.get_visual_selections
    if selections.isEmpty then HookOutput.new
    else
      HookOutput.new.with_additional_context
        (String.intercalate "\n\n" (selections.map format_selection))

/-- RPCError from src/action/vscode/rpc.rs lines 45-48. -/
structure RPCError where
  code : Int
  message : String
deriving DecidableEq, Repr

/-- RPCResponse from src/action/vscode/rpc.rs lines 37-41.  serde deserializes
both an absent field and an explicit JSON null to `none`, so the two are
identified here. -/
structure RPCResponse (α : Type) where
  id : Option Nat
  result : Option α
  error : Option RPCError
deriving DecidableEq, Repr

/-- Failure modes of send_request, from src/action/vscode/rpc.rs lines
147-153. -/
inductive RPCFailure where
  | rpc_error (code : Int) (message : String)
  | missing_result
deriving DecidableEq, Repr

/-- Response disposition of RPCClient::send_request, from
src/action/vscode/rpc.rs lines 147-154: a present error wins, then a missing
result fails, otherwise the result is returned. -/
def handle_response {α : Type} (r : RPCResponse α) : Except RPCFailure α :=
  match r.error with
  | some e => Except.error (RPCFailure.rpc_error e.code e.message)
  | none =>
    match r.result with
    | some v => Except.ok v
    | none => Except.error RPCFailure.missing_result

/-- compute_neovim_socket_path from src/utils.rs lines 51-54.  compute_cwd_hash
(src/utils.rs lines 38-46) canonicalizes the working directory and hashes it
with blake3, both external to the sources under verification; the resulting hex
string is taken here as the parameter `cwd_hash`, fixing the canonical working
directory as the claims do. -/
def compute_neovim_socket_path (cwd_hash : String) (pid : Nat) : String :=
  "/tmp/" ++ cwd_hash ++ "-" ++ toString pid ++ ".sock"

/-- compute_vscode_socket_path from src/utils.rs lines 59-65. -/
def compute_vscode_socket_path (cwd_hash : String) (pid : Nat) : String :=
  "/tmp/" ++ cwd_hash ++ "-vscode-" ++ toString pid ++ ".sock"

/-- State of the /tmp socket directory at discovery time: the entry names the
glob enumeration returns, and which of them still exist when the
`path.exists()` filter runs (a vanished entry models the race the spec
describes). -/
structure TmpDir where
  entries : List String
  still_exists : String → Bool

/-- Semantics of the external glob crate for the patterns the code builds
(`{pre}*{suf}` with a single star): an entry name matches when it starts with
`pre`, ends with `suf`, and is long enough for the two not to overlap. -/
def glob_matches (pre suf name : String) : Bool :=
  decide (name.data.take pre.data.length = pre.data) &&
  decide (name.data.drop (name.data.length - suf.data.length) = suf.data) &&
  decide (pre.data.length + suf.data.length ≤ name.data.length)

/-- The VSCode naming tag as a substring test, modelling
`file_name().contains("-vscode-")` from src/utils.rs lines 80-83. -/
def has_vscode_tag (name : String) : Bool :=
  decide ("-vscode-".data <:+: name.data)

/-- find_neovim_sockets from src/utils.rs lines 71-86: glob
`/tmp/{hash}-*.sock`, keep entries that still exist and whose file name does
not contain the VSCode tag. -/
def find_neovim_sockets (cwd_hash : String) (d : TmpDir) : List String :=
  (d.entries.filter (glob_matches (cwd_hash ++ "-") ".sock")).filter
    (fun name => d.still_exists name && !has_vscode_tag name)

/-- find_vscode_sockets from src/utils.rs lines 91-100: glob
`/tmp/{hash}-vscode-*.sock`, keep entries that still exist. -/
def find_vscode_sockets (cwd_hash : String) (d : TmpDir) : List String :=
  (d.entries.filter (glob_matches (cwd_hash ++ "-vscode-") ".sock")).filter
    d.still_exists

/-- The ASCII apostrophe, written via its code point to keep the embedding
readable next to the doubled-quote escaping it is about. -/
def quote_char : Char := Char.ofNat 39

/-- Character-level semantics of `message.replace(CH_QUOTE, "''")` from
src/action/neovim.rs line 180 (`str::replace` with a one-character pattern
replaces every occurrence of that character, here by two apostrophes). -/
def escape_quotes : List Char → List Char
  | [] => []
  | c :: rest =>
    if c = quote_char then c :: c :: escape_quotes rest
    else c :: escape_quotes rest

/-- The echo command built by NeovimAction::send_message, src/action/neovim.rs
line 180: the escaped message wrapped in single quotes after `echo `. -/
def send_message_cmd (message : String) : String :=
  "echo " ++ String.mk [quote_char] ++ String.mk (escape_quotes message.data) ++
    String.mk [quote_char]

/-- Consumption of a Vim single-quoted argument, starting just after the
opening quote: a doubled quote is an escaped quote and continues the argument,
a lone quote terminates it.  Returns the argument's content and the remaining
input, or `none` if the argument never terminates. -/
def parse_quoted : List Char → Option (List Char × List Char)
  | [] => none
  | c :: rest =>
    if c = quote_char then
      match rest with
      | [] => some ([], [])
      | c2 :: rest2 =>
        if c2 = quote_char then
          match parse_quoted rest2 with
          | some (body, remaining) => some (quote_char :: body, remaining)
          | none => none
        else some ([], rest)
    else
      match parse_quoted rest with
      | some (body, remaining) => some (c :: body, remaining)
      | none => none

/-! ## Helper lemmas -/

lemma try_fold_go_some_of_processed {α T : Type}
    (f : T → α → Except Unit (T × Bool)) :
    ∀ (conns : List (Option α)) (acc : T),
      ∃ t, try_fold_go f conns acc true = some t := by
  intro conns
  induction conns with
  | nil => intro acc; exact ⟨acc, rfl⟩
  | cons oc rest ih =>
    intro acc
    cases oc with
    | none => exact ih acc
    | some client =>
      show ∃ t, (match f acc client with
        | Except.error _ => try_fold_go f rest acc true
        | Except.ok (acc2, true) => try_fold_go f rest acc2 true
        | Except.ok (acc2, false) => some acc2) = some t
      cases hf : f acc client with
      | error e => exact ih acc
      | ok r =>
        obtain ⟨acc2, cont⟩ := r
        cases cont with
        | true => exact ih acc2
        | false => exact ⟨acc2, rfl⟩

lemma try_fold_go_none_iff {α T : Type} (f : T → α → Except Unit (T × Bool)) :
    ∀ (conns : List (Option α)) (acc : T),
      try_fold_go f conns acc false = none ↔
        ∀ oc ∈ conns, ∀ client, oc = some client →
          f acc client = Except.error () := by
  intro conns
  induction conns with
  | nil => intro acc; simp [try_fold_go]
  | cons oc rest ih =>
    intro acc
    cases oc with
    | none =>
      show try_fold_go f rest acc false = none ↔ _
      rw [ih acc]
      constructor
      · intro h oc2 hmem client hoc2
        rcases List.mem_cons.mp hmem with h1 | h1
        · exact absurd (h1 ▸ hoc2) (by simp)
        · exact h oc2 h1 client hoc2
      · intro h oc2 hmem client hoc2
        exact h oc2 (List.mem_cons_of_mem _ hmem) client hoc2
    | some client =>
      show (match f acc client with
        | Except.error _ => try_fold_go f rest acc false
        | Except.ok (acc2, true) => try_fold_go f rest acc2 true
        | Except.ok (acc2, false) => some acc2) = none ↔ _
      cases hf : f acc client with
      | error e =>
        rw [ih acc]
        constructor
        · intro h oc2 hmem client2 hoc2
          rcases List.mem_cons.mp hmem with h1 | h1
          · cases h1 ▸ hoc2; exact hf
          · exact h oc2 h1 client2 hoc2
        · intro h oc2 hmem client2 hoc2
          exact h oc2 (List.mem_cons_of_mem _ hmem) client2 hoc2
      | ok r =>
        obtain ⟨acc2, cont⟩ := r
        have hne : f acc client ≠ Except.error () := by
          rw [hf]; intro hcon; cases hcon
        constructor
        · intro h
          cases cont with
          | true =>
            obtain ⟨t, ht⟩ := try_fold_go_some_of_processed f rest acc2
            have h2 : try_fold_go f rest acc2 true = none := h
            rw [ht] at h2; cases h2
          | false =>
            have h2 : some acc2 = none := h
            cases h2
        · intro h
          exact absurd (h (some client) (List.mem_cons_self _ _) client rfl) hne

lemma try_fold_go_trace_fst {α T : Type} (f : T → α → Except Unit (T × Bool)) :
    ∀ (conns : List (Option α)) (acc : T) (anyP : Bool),
      (try_fold_go_trace f conns acc anyP).1 = try_fold_go f conns acc anyP := by
  intro conns
  induction conns with
  | nil => intro acc anyP; rfl
  | cons oc rest ih =>
    intro acc anyP
    cases oc with
    | none => exact ih acc anyP
    | some client =>
      show (match f acc client with
        | Except.error _ =>
          let r := try_fold_go_trace f rest acc anyP
          (r.1, client :: r.2)
        | Except.ok (acc2, true) =>
          let r := try_fold_go_trace f rest acc2 true
          (r.1, client :: r.2)
        | Except.ok (acc2, false) => (some acc2, [client])).1 = _
      cases hf : f acc client with
      | error e => simpa [try_fold_go, hf] using ih acc anyP
      | ok r =>
        obtain ⟨acc2, cont⟩ := r
        cases cont with
        | true => simpa [try_fold_go, hf] using ih acc2 true
        | false => simp [try_fold_go, hf]

lemma try_fold_go_trace_mem {α T : Type} (f : T → α → Except Unit (T × Bool)) :
    ∀ (conns : List (Option α)) (acc : T) (anyP : Bool) (client : α),
      client ∈ (try_fold_go_trace f conns acc anyP).2 → some client ∈ conns := by
  intro conns
  induction conns with
  | nil => intro acc anyP client h; cases h
  | cons oc rest ih =>
    intro acc anyP client h
    cases oc with
    | none => exact List.mem_cons_of_mem _ (ih acc anyP client h)
    | some c0 =>
      revert h
      show client ∈ (match f acc c0 with
        | Except.error _ =>
          let r := try_fold_go_trace f rest acc anyP
          (r.1, c0 :: r.2)
        | Except.ok (acc2, true) =>
          let r := try_fold_go_trace f rest acc2 true
          (r.1, c0 :: r.2)
        | Except.ok (acc2, false) => (some acc2, [c0])).2 → _
      cases hf : f acc c0 with
      | error e =>
        intro h
        rcases List.mem_cons.mp h with h1 | h1
        · exact h1 ▸ List.mem_cons_self _ _
        · exact List.mem_cons_of_mem _ (ih acc anyP client h1)
      | ok r =>
        obtain ⟨acc2, cont⟩ := r
        cases cont with
        | true =>
          intro h
          rcases List.mem_cons.mp h with h1 | h1
          · exact h1 ▸ List.mem_cons_self _ _
          · exact List.mem_cons_of_mem _ (ih acc2 true client h1)
        | false =>
          intro h
          rcases List.mem_cons.mp h with h1 | h1
          · exact h1 ▸ List.mem_cons_self _ _
          · cases h1

lemma try_fold_go_all_none {α T : Type} (f : T → α → Except Unit (T × Bool)) :
    ∀ (conns : List (Option α)) (acc : T), (∀ oc ∈ conns, oc = none) →
      try_fold_go f conns acc false = none := by
  intro conns acc h
  exact (try_fold_go_none_iff f conns acc).mpr
    (fun oc hmem client hoc => absurd (h oc hmem ▸ hoc) (by simp))

lemma editor_buffer_status_all_none (conns : List (Option Instance))
    (h : ∀ oc ∈ conns, oc = none) :
    editor_buffer_status conns =
      { is_current := false, has_unsaved_changes := false } := by
  unfold editor_buffer_status try_fold_instances
  rw [try_fold_go_all_none _ _ _ h]
  rfl

/-- Reference recursion for the per-kind status fold on a list of pure,
all-successful per-instance statuses: OR in each status, stop at the first
unsaved one. -/
def status_fold_ref (ic : Bool) : List BufferStatus → Bool × Bool
  | [] => (ic, false)
  | s :: rest =>
    let ic2 := ic || s.is_current
    if s.has_unsaved_changes then (ic2, true) else status_fold_ref ic2 rest

/-- Instance list in which every address is reachable and reports the given
status successfully. -/
def pure_status_instances (l : List BufferStatus) : List (Option Instance) :=
  l.map (fun s => some { status := Except.ok s, selection := Except.ok none })

/-- Result of the per-kind buffer_status when the reachable instances return
exactly the statuses in `l`, in that visit order. -/
def status_of (l : List BufferStatus) : BufferStatus :=
  editor_buffer_status (pure_status_instances l)

lemma try_fold_go_cons_some {α T : Type} (f : T → α → Except Unit (T × Bool))
    (client : α) (rest : List (Option α)) (acc : T) (anyP : Bool) :
    try_fold_go f (some client :: rest) acc anyP =
      match f acc client with
      | Except.error _ => try_fold_go f rest acc anyP
      | Except.ok (acc2, true) => try_fold_go f rest acc2 true
      | Except.ok (acc2, false) => some acc2 := rfl

lemma status_go_ref (l : List BufferStatus) :
    ∀ (ic anyP : Bool),
      try_fold_go buffer_status_step (pure_status_instances l) (ic, false) anyP =
        if anyP || !l.isEmpty then some (status_fold_ref ic l) else none := by
  induction l with
  | nil =>
    intro ic anyP
    cases anyP <;> rfl
  | cons s rest ih =>
    intro ic anyP
    have hstep : buffer_status_step (ic, false)
        { status := Except.ok s, selection := Except.ok none } =
          Except.ok ((ic || s.is_current, s.has_unsaved_changes),
            !s.has_unsaved_changes) := by
      simp [buffer_status_step]
    simp only [pure_status_instances, List.map_cons] at ih ⊢
    rw [try_fold_go_cons_some, hstep]
    cases hu : s.has_unsaved_changes with
    | true =>
      simp [status_fold_ref, hu]
    | false =>
      simp only [Bool.not_false]
      rw [ih (ic || s.is_current) true]
      simp [status_fold_ref, hu]

lemma status_of_eq_ref (l : List BufferStatus) :
    status_of l =
      { is_current := (status_fold_ref false l).1,
        has_unsaved_changes := (status_fold_ref false l).2 } := by
  unfold status_of editor_buffer_status try_fold_instances
  rw [status_go_ref l false false]
  cases l with
  | nil => rfl
  | cons s rest => rfl

lemma status_fold_ref_unsaved (l : List BufferStatus) :
    ∀ ic, (status_fold_ref ic l).2 = l.any (fun s => s.has_unsaved_changes) := by
  induction l with
  | nil => intro ic; rfl
  | cons s rest ih =>
    intro ic
    show (if s.has_unsaved_changes then (ic || s.is_current, true)
      else status_fold_ref (ic || s.is_current) rest).2 = _
    cases hu : s.has_unsaved_changes with
    | true => simp [hu]
    | false => simp [hu, ih]

lemma status_fold_ref_no_unsaved (l : List BufferStatus)
    (h : ∀ s ∈ l, s.has_unsaved_changes = false) :
    ∀ ic, status_fold_ref ic l = (ic || l.any (fun s => s.is_current), false) := by
  induction l with
  | nil => intro ic; simp [status_fold_ref]
  | cons s rest ih =>
    intro ic
    have hs : s.has_unsaved_changes = false := h s (List.mem_cons_self _ _)
    have hrest : ∀ s2 ∈ rest, s2.has_unsaved_changes = false :=
      fun s2 hmem => h s2 (List.mem_cons_of_mem _ hmem)
    show (if s.has_unsaved_changes then (ic || s.is_current, true)
      else status_fold_ref (ic || s.is_current) rest) = _
    rw [hs, if_neg (by simp), ih hrest (ic || s.is_current)]
    simp [Bool.or_assoc]

lemma try_fold_go_trace_cons_some {α T : Type}
    (f : T → α → Except Unit (T × Bool)) (client : α)
    (rest : List (Option α)) (acc : T) (anyP : Bool) :
    try_fold_go_trace f (some client :: rest) acc anyP =
      match f acc client with
      | Except.error _ =>
        let r := try_fold_go_trace f rest acc anyP
        (r.1, client :: r.2)
      | Except.ok (acc2, true) =>
        let r := try_fold_go_trace f rest acc2 true
        (r.1, client :: r.2)
      | Except.ok (acc2, false) => (some acc2, [client]) := rfl

lemma early_exit_aux (post : List (Option Instance)) :
    ∀ (l : List (Option Instance)) (ic0 anyP : Bool) (res : Bool × Bool),
      try_fold_go buffer_status_step l (ic0, false) anyP = some res →
      res.2 = true →
      try_fold_go_trace buffer_status_step (l ++ post) (ic0, false) anyP =
        try_fold_go_trace buffer_status_step l (ic0, false) anyP := by
  intro l
  induction l with
  | nil =>
    intro ic0 anyP res hres hr2
    cases anyP with
    | false => cases hres
    | true =>
      have h2 : some ((ic0, false) : Bool × Bool) = some res := hres
      cases h2
      cases hr2
  | cons oc rest ih =>
    intro ic0 anyP res hres hr2
    cases oc with
    | none => exact ih ic0 anyP res hres hr2
    | some inst =>
      cases hst : inst.status with
      | error e =>
        have hstep : buffer_status_step (ic0, false) inst = Except.error e := by
          simp [buffer_status_step, hst]
        rw [List.cons_append, try_fold_go_trace_cons_some, hstep,
          try_fold_go_trace_cons_some, hstep]
        have hres2 : try_fold_go buffer_status_step rest (ic0, false) anyP =
            some res := by
          rw [try_fold_go_cons_some, hstep] at hres
          exact hres
        rw [ih ic0 anyP res hres2 hr2]
      | ok s =>
        have hstep : buffer_status_step (ic0, false) inst =
            Except.ok ((ic0 || s.is_current, s.has_unsaved_changes),
              !s.has_unsaved_changes) := by
          simp [buffer_status_step, hst]
        cases hu : s.has_unsaved_changes with
        | true =>
          rw [hu] at hstep
          simp only [Bool.not_true] at hstep
          rw [List.cons_append, try_fold_go_trace_cons_some, hstep,
            try_fold_go_trace_cons_some, hstep]
        | false =>
          rw [hu] at hstep
          simp only [Bool.not_false] at hstep
          rw [List.cons_append, try_fold_go_trace_cons_some, hstep,
            try_fold_go_trace_cons_some, hstep]
          have hres2 : try_fold_go buffer_status_step rest
              (ic0 || s.is_current, false) true = some res := by
            rw [try_fold_go_cons_some, hstep] at hres
            exact hres
          exact congrArg (fun r => (r.1, inst :: r.2))
            (ih (ic0 || s.is_current) true res hres2 hr2)

lemma buffer_status_all_unreachable (a : EditorActions)
    (hn : ∀ conns ∈ a.neovim, ∀ oc ∈ conns, oc = none)
    (hv : ∀ conns ∈ a.vscode, ∀ oc ∈ conns, oc = none) :
    a.buffer_status = { is_current := false, has_unsaved_changes := false } := by
  obtain ⟨n, v⟩ := a
  cases n with
  | none =>
    cases v with
    | none => rfl
    | some conns =>
      have h := editor_buffer_status_all_none conns
        (hv conns (by simp [Option.mem_def]))
      simp [EditorActions.buffer_status, h]
  | some conns =>
    have h := editor_buffer_status_all_none conns
      (hn conns (by simp [Option.mem_def]))
    cases v with
    | none => simp [EditorActions.buffer_status, h]
    | some conns2 =>
      have h2 := editor_buffer_status_all_none conns2
        (hv conns2 (by simp [Option.mem_def]))
      simp [EditorActions.buffer_status, h, h2]

lemma buffer_status_of_no_actions (a : EditorActions)
    (h : a.has_any = false) :
    a.buffer_status = { is_current := false, has_unsaved_changes := false } := by
  obtain ⟨n, v⟩ := a
  cases n with
  | some conns => simp [EditorActions.has_any] at h
  | none =>
    cases v with
    | some conns => simp [EditorActions.has_any] at h
    | none => rfl

lemma selections_nonempty_has_any (a : EditorActions)
    (h : a.get_visual_selections ≠ []) : a.has_any = true := by
  obtain ⟨n, v⟩ := a
  cases n with
  | some conns => rfl
  | none =>
    cases v with
    | some conns => simp [EditorActions.has_any]
    | none => exact absurd rfl h

/-- Decimal valuation of a digit list, most significant first, continuing from
accumulator `a`.  Left inverse to the decimal rendering used by `Nat.repr`. -/
def dec_val (a : Nat) (l : List Char) : Nat :=
  l.foldl (fun acc c => acc * 10 + (c.toNat - 48)) a

/-- Number of decimal digits of `n` (at least one). -/
def num_digits (n : Nat) : Nat :=
  if h : n < 10 then 1 else num_digits (n / 10) + 1
decreasing_by exact Nat.div_lt_self (by omega) (by omega)

lemma digit_char_val : ∀ m, m < 10 → (Nat.digitChar m).toNat = 48 + m := by
  decide

lemma num_digits_small {n : Nat} (h : n < 10) : num_digits n = 1 := by
  rw [num_digits, dif_pos h]

lemma num_digits_large {n : Nat} (h : ¬n < 10) :
    num_digits n = num_digits (n / 10) + 1 := by
  rw [num_digits]
  rw [dif_neg h]

lemma dec_val_cons (a : Nat) (c : Char) (l : List Char) :
    dec_val a (c :: l) = dec_val (a * 10 + (c.toNat - 48)) l := rfl

lemma toDigitsCore_val :
    ∀ (fuel n : Nat) (ds : List Char) (a : Nat), n < fuel →
      dec_val a (Nat.toDigitsCore 10 fuel n ds) =
        dec_val (a * 10 ^ num_digits n + n) ds := by
  intro fuel
  induction fuel with
  | zero => intro n ds a h; omega
  | succ f ih =>
    intro n ds a h
    show dec_val a (if n / 10 = 0 then Nat.digitChar (n % 10) :: ds
      else Nat.toDigitsCore 10 f (n / 10) (Nat.digitChar (n % 10) :: ds)) = _
    by_cases h10 : n / 10 = 0
    · have hn : n < 10 := by omega
      rw [if_pos h10, dec_val_cons, digit_char_val (n % 10) (Nat.mod_lt n (by omega))]
      have hmod : n % 10 = n := Nat.mod_eq_of_lt hn
      rw [num_digits_small hn]
      congr 1
      omega
    · have hpos : 0 < n := by
        by_contra hz
        have : n = 0 := by omega
        subst this
        simp at h10
      have hten : 10 ≤ n := by
        by_contra hc
        exact h10 (Nat.div_eq_of_lt (by omega))
      have hlt : n / 10 < n := Nat.div_lt_self hpos (by omega)
      have hfuel : n / 10 < f := by omega
      rw [if_neg h10, ih (n / 10) (Nat.digitChar (n % 10) :: ds) a hfuel,
        dec_val_cons, digit_char_val (n % 10) (Nat.mod_lt n (by omega))]
      have hnd : num_digits n = num_digits (n / 10) + 1 :=
        num_digits_large (by omega)
      rw [hnd]
      congr 1
      have hdm : 10 * (n / 10) + n % 10 = n := Nat.div_add_mod n 10
      have hsub : 48 + n % 10 - 48 = n % 10 := by omega
      rw [hsub, Nat.pow_succ]
      calc (a * 10 ^ num_digits (n / 10) + n / 10) * 10 + n % 10
          = a * (10 ^ num_digits (n / 10) * 10) + (10 * (n / 10) + n % 10) := by
            ring
        _ = a * (10 ^ num_digits (n / 10) * 10) + n := by rw [hdm]

lemma repr_data_val (n : Nat) : dec_val 0 (Nat.repr n).data = n := by
  show dec_val 0 (List.asString (Nat.toDigitsCore 10 (n + 1) n [])).data = n
  have hdata : (List.asString (Nat.toDigitsCore 10 (n + 1) n [])).data =
      Nat.toDigitsCore 10 (n + 1) n [] := rfl
  rw [hdata, toDigitsCore_val (n + 1) n [] 0 (Nat.lt_succ_self n)]
  show 0 * 10 ^ num_digits n + n = n
  simp

lemma toString_nat_data_inj {p q : Nat}
    (h : (toString p).data = (toString q).data) : p = q := by
  have hp : dec_val 0 (Nat.repr p).data = p := repr_data_val p
  have hq : dec_val 0 (Nat.repr q).data = q := repr_data_val q
  have hpq : (Nat.repr p).data = (Nat.repr q).data := h
  rw [hpq, hq] at hp
  exact hp.symm

lemma glob_matches_take {pre suf name : String}
    (h : glob_matches pre suf name = true) :
    name.data.take pre.data.length = pre.data := by
  unfold glob_matches at h
  simp only [Bool.and_eq_true, decide_eq_true_eq] at h
  exact h.1.1

lemma vscode_glob_tag {cwd_hash name : String}
    (h : glob_matches (cwd_hash ++ "-vscode-") ".sock" name = true) :
    has_vscode_tag name = true := by
  have htake := glob_matches_take h
  unfold has_vscode_tag
  rw [decide_eq_true_eq]
  have hpre : (cwd_hash ++ "-vscode-").data <+: name.data :=
    htake ▸ List.take_prefix _ _
  have hsuf : ("-vscode-").data <:+ (cwd_hash ++ "-vscode-").data := by
    rw [String.data_append]
    exact List.suffix_append _ _
  exact hsuf.isInfix.trans hpre.isInfix

/-! ## Claim theorems -/

/-- C4: for every JSON-RPC response, the client call fails whenever the
response carries a non-null error field, even if result is also set (error
wins); it also fails when the response carries neither error nor result
(missing result); and it succeeds exactly on a response with no error and a
present result, returning that result. -/
theorem rpc_response_disposition {α : Type} (r : RPCResponse α) :
    (∀ e, r.error = some e →
      handle_response r =
        Except.error (RPCFailure.rpc_error e.code e.message)) ∧
    (r.error = none → r.result = none →
      handle_response r = Except.error RPCFailure.missing_result) ∧
    ((∃ v, handle_response r = Except.ok v) ↔
      (r.error = none ∧ ∃ v, r.result = some v)) ∧
    (∀ v, r.error = none → r.result = some v →
      handle_response r = Except.ok v) := by
  obtain ⟨i, res, err⟩ := r
  refine ⟨?_, ?_, ?_, ?_⟩ <;>
    cases err <;> cases res <;> simp [handle_response]

/-- Concrete response used to witness C4. -/
def resp_both : RPCResponse Nat :=
  { id := some 1, result := some 5,
    error := some { code := 2, message := "boom" } }

/-- Witness for C4: a response with both error and result set fails with the
error (error wins). -/
theorem rpc_response_disposition_witness :
    handle_response resp_both = Except.error (RPCFailure.rpc_error 2 "boom") :=
  (rpc_response_disposition resp_both).1 { code := 2, message := "boom" } rfl

/-- Per-address outcome of the optional-value op used by collect-all: the
address may be unreachable, the call may fail, or it returns an explicit none
or a value. -/
inductive OpOutcome (β : Type) where
  | unreachable
  | op_failed
  | op_none
  | op_some (b : β)
deriving DecidableEq, Repr

/-- Connect outcome of an address with the given op outcome. -/
def op_outcome_conn {β : Type} : OpOutcome β → Option (OpOutcome β)
  | OpOutcome.unreachable => none
  | o => some o

/-- Result of invoking the op on a connected address with the given outcome. -/
def op_outcome_step {β : Type} : OpOutcome β → Except Unit (Option β)
  | OpOutcome.op_some b => Except.ok (some b)
  | OpOutcome.op_none => Except.ok none
  | _ => Except.error ()

/-- The values carried by `op_some` outcomes, in their original order -- the
reference rendering of the spec sentence "the sequence of the Some-values in
that same relative order". -/
def some_values {β : Type} : List (OpOutcome β) → List β
  | [] => []
  | OpOutcome.op_some b :: rest => b :: some_values rest
  | OpOutcome.unreachable :: rest => some_values rest
  | OpOutcome.op_failed :: rest => some_values rest
  | OpOutcome.op_none :: rest => some_values rest

/-- C6: collect-all preserves relative order and silently drops connect
failures, call failures and explicit none results: for every list of
per-address outcomes, the collected result is exactly the sequence of the
Some-values in the same relative order. -/
theorem collect_all_order_and_drops {β : Type} (outs : List (OpOutcome β)) :
    collect_all (outs.map op_outcome_conn) op_outcome_step = some_values outs := by
  induction outs with
  | nil => rfl
  | cons o rest ih =>
    cases o <;>
      simpa [collect_all, op_outcome_conn, op_outcome_step, some_values,
        List.filterMap_cons] using ih

/-- C7: in the accumulate-with-early-exit fold, an address that fails to
connect, and one whose per-instance step errors, are skipped with the
accumulator unchanged; and the return value is `none` exactly when no
address's step succeeded (otherwise it is `some` of the final accumulator,
possibly still the initial value, as the witness shows). -/
theorem try_fold_error_skip {α T : Type} (f : T → α → Except Unit (T × Bool)) :
    (∀ (rest : List (Option α)) (acc : T) (anyP : Bool),
      try_fold_go f (none :: rest) acc anyP = try_fold_go f rest acc anyP) ∧
    (∀ (client : α) (rest : List (Option α)) (acc : T) (anyP : Bool),
      f acc client = Except.error () →
      try_fold_go f (some client :: rest) acc anyP =
        try_fold_go f rest acc anyP) ∧
    (∀ (conns : List (Option α)) (init : T),
      try_fold_instances conns init f = none ↔
        ∀ oc ∈ conns, ∀ client, oc = some client →
          f init client = Except.error ()) := by
  refine ⟨fun rest acc anyP => rfl, ?_, ?_⟩
  · intro client rest acc anyP hf
    rw [try_fold_go_cons_some, hf]
  · intro conns init
    exact try_fold_go_none_iff f conns init

/-- Probe step for the C7 witness: a `false` client fails the call, a `true`
client succeeds without touching the accumulator. -/
def skip_probe (n : Nat) (c : Bool) : Except Unit (Nat × Bool) :=
  if c then Except.ok (n, true) else Except.error ()

/-- Witness for C7: an erroring step is skipped with the accumulator intact, a
run in which no step succeeds returns none, and a processed run can return the
initial accumulator unchanged. -/
theorem try_fold_error_skip_witness :
    try_fold_go skip_probe (some false :: [some true]) 0 false =
      try_fold_go skip_probe [some true] 0 false ∧
    try_fold_instances [none, some false] 0 skip_probe = none ∧
    try_fold_instances [none, some false, some true] 0 skip_probe = some 0 :=
  ⟨(try_fold_error_skip skip_probe).2.1 false [some true] 0 false rfl,
   ((try_fold_error_skip skip_probe).2.2 [none, some false] 0).mpr (by decide),
   by decide⟩

/-- C10: the Neovim notify command is `echo` of the message wrapped in single
quotes with every quote doubled, and consuming a Vim single-quoted argument
from the character after the opening quote therefore recovers exactly the
original message, terminating only at the final closing quote -- the message
text can never terminate the quoted argument early. -/
theorem send_message_quote_escape (m : String) :
    (send_message_cmd m).data =
      "echo ".data ++ quote_char :: (escape_quotes m.data ++ [quote_char]) ∧
    parse_quoted (escape_quotes m.data ++ [quote_char]) = some (m.data, []) := by
  constructor
  · show ("echo ".data ++ [quote_char] ++ escape_quotes m.data ++ [quote_char]) = _
    simp
  · induction m.data with
    | nil => simp [escape_quotes, parse_quoted]
    | cons c rest ih =>
      by_cases hc : c = quote_char
      · subst hc
        show parse_quoted (quote_char :: quote_char ::
          (escape_quotes rest ++ [quote_char])) = _
        simp [parse_quoted, ih]
      · rw [show escape_quotes (c :: rest) = c :: escape_quotes rest from by
          simp [escape_quotes, hc]]
        rw [List.cons_append]
        unfold parse_quoted
        rw [if_neg hc, ih]

/-- The fixed deny reason from src/handler.rs line 229. -/
def deny_reason : String :=
  "The file is being edited by the user, try again later"

/-- The deny output emitted by check_buffer_modifications,
src/handler.rs lines 227-230. -/
def deny_output : HookOutput :=
  HookOutput.new.with_permission_decision PermissionDecision.deny
    (some deny_reason)

/-- C1: on a PreToolUse event for a file-mutating tool the handler emits the
fixed deny decision (with its non-empty reason) exactly when the aggregated
status has both has_unsaved_changes and is_current true; in every other case,
including the case in which every instance of either kind is unreachable, it
emits the plain proceed output, which carries no decision payload. -/
theorem pre_modification_check_decision (tool : Tool) (input : FileToolInput)
    (actions : EditorActions)
    (h : tool = Tool.Edit input ∨ tool = Tool.Write input ∨
      tool = Tool.MultiEdit input) :
    ((actions.buffer_status.has_unsaved_changes &&
        actions.buffer_status.is_current) = true →
      handle_pre_tool_use tool actions = deny_output) ∧
    ((actions.buffer_status.has_unsaved_changes &&
        actions.buffer_status.is_current) = false →
      handle_pre_tool_use tool actions = HookOutput.new) ∧
    (handle_pre_tool_use tool actions = deny_output ↔
      (actions.buffer_status.has_unsaved_changes = true ∧
        actions.buffer_status.is_current = true)) ∧
    deny_output.hook_specific_output =
      some { hook_event_name := "PreToolUse",
             permission_decision := some PermissionDecision.deny,
             permission_decision_reason := some deny_reason,
             additional_context := none } ∧
    deny_reason ≠ "" ∧
    HookOutput.new.hook_specific_output = none ∧
    ((∀ conns ∈ actions.neovim, ∀ oc ∈ conns, oc = none) →
      (∀ conns ∈ actions.vscode, ∀ oc ∈ conns, oc = none) →
      handle_pre_tool_use tool actions = HookOutput.new) := by
  have htool : handle_pre_tool_use tool actions =
      check_buffer_modifications actions := by
    rcases h with h | h | h <;> subst h <;> rfl
  have hdeny_ne : deny_output ≠ HookOutput.new := by decide
  have hcheck_true : (actions.buffer_status.has_unsaved_changes &&
      actions.buffer_status.is_current) = true →
      check_buffer_modifications actions = deny_output := by
    intro hf
    have hany : actions.has_any = true := by
      cases hh : actions.has_any
      · rw [buffer_status_of_no_actions actions hh] at hf
        simp at hf
      · rfl
    unfold check_buffer_modifications
    simp only [hany, Bool.not_true, Bool.false_eq_true, if_false]
    rw [if_pos hf]
    rfl
  have hcheck_false : (actions.buffer_status.has_unsaved_changes &&
      actions.buffer_status.is_current) = false →
      check_buffer_modifications actions = HookOutput.new := by
    intro hf
    unfold check_buffer_modifications
    cases hh : actions.has_any <;> simp [hh, hf]
  rw [htool]
  refine ⟨hcheck_true, hcheck_false, ?_, rfl, by decide, rfl, ?_⟩
  · constructor
    · intro he
      cases hflag : (actions.buffer_status.has_unsaved_changes &&
          actions.buffer_status.is_current)
      · rw [hcheck_false hflag] at he
        exact absurd he.symm hdeny_ne
      · exact Bool.and_eq_true _ _ |>.mp hflag
    · rintro ⟨h1, h2⟩
      exact hcheck_true (by rw [h1, h2]; rfl)
  · intro hn hv
    apply hcheck_false
    rw [buffer_status_all_unreachable actions hn hv]
    rfl

/-- Instance with a current, dirty buffer, for the C1 witness. -/
def dirty_instance : Instance :=
  { status := Except.ok { is_current := true, has_unsaved_changes := true },
    selection := Except.ok none }

/-- Edit tool input for the C1 witness. -/
def edit_input : FileToolInput :=
  { file_path := "main.rs", content := none, old_string := none,
    new_string := none }

/-- Actions with one reachable dirty Neovim instance, for the C1 witness. -/
def dirty_actions : EditorActions :=
  { neovim := some [some dirty_instance], vscode := none }

/-- Witness for C1: an Edit on a file that is current and dirty in one
instance is denied with the fixed non-empty reason. -/
theorem pre_modification_check_decision_witness :
    handle_pre_tool_use (Tool.Edit edit_input) dirty_actions = deny_output ∧
    deny_reason ≠ "" := by
  have h := pre_modification_check_decision (Tool.Edit edit_input) edit_input
    dirty_actions (Or.inl rfl)
  exact ⟨h.1 (by decide), h.2.2.2.2.1⟩

/-- C2 counterexample: the two visit orders of the same pair of per-instance
statuses give different aggregated results -- the early exit on the dirty
instance skips the instance whose buffer is current, so is_current differs. -/
theorem buffer_status_order_dependent_cex :
    ([{ is_current := true, has_unsaved_changes := false },
      { is_current := false, has_unsaved_changes := true }] :
        List BufferStatus).Perm
      [{ is_current := false, has_unsaved_changes := true },
       { is_current := true, has_unsaved_changes := false }] ∧
    status_of [{ is_current := true, has_unsaved_changes := false },
      { is_current := false, has_unsaved_changes := true }] ≠
      status_of [{ is_current := false, has_unsaved_changes := true },
        { is_current := true, has_unsaved_changes := false }] := by
  decide

/-- C2 (amended): for every permutation of the per-instance BufferStatus
values, the aggregated has_unsaved_changes is unchanged; and when no instance
reports unsaved changes (so the early exit never fires) the whole aggregated
status, including is_current, is also unchanged. -/
theorem buffer_status_order_amended (l l2 : List BufferStatus)
    (hperm : l.Perm l2) :
    (status_of l).has_unsaved_changes = (status_of l2).has_unsaved_changes ∧
    ((∀ s ∈ l, s.has_unsaved_changes = false) → status_of l = status_of l2) := by
  have hval : ∀ l3 : List BufferStatus, (status_of l3).has_unsaved_changes =
      l3.any (fun s => s.has_unsaved_changes) := by
    intro l3
    rw [status_of_eq_ref]
    exact status_fold_ref_unsaved l3 false
  have hany : ∀ (p : BufferStatus → Bool), l.any p = l2.any p := by
    intro p
    rw [Bool.eq_iff_iff, List.any_eq_true, List.any_eq_true]
    constructor
    · rintro ⟨x, hx, hp⟩
      exact ⟨x, hperm.mem_iff.mp hx, hp⟩
    · rintro ⟨x, hx, hp⟩
      exact ⟨x, hperm.mem_iff.mpr hx, hp⟩
  constructor
  · rw [hval l, hval l2, hany]
  · intro hnone
    have hnone2 : ∀ s ∈ l2, s.has_unsaved_changes = false :=
      fun s hs => hnone s (hperm.mem_iff.mpr hs)
    rw [status_of_eq_ref, status_of_eq_ref,
      status_fold_ref_no_unsaved l hnone false,
      status_fold_ref_no_unsaved l2 hnone2 false]
    rw [hany (fun s => s.is_current)]

/-- Witness for the amended C2 on concrete permuted lists: the unsaved flag
agrees across the swap with a dirty instance, and the full status agrees
across the swap when no instance is dirty. -/
theorem buffer_status_order_amended_witness :
    (status_of [{ is_current := false, has_unsaved_changes := true },
        { is_current := true, has_unsaved_changes := false }]).has_unsaved_changes =
      (status_of [{ is_current := true, has_unsaved_changes := false },
        { is_current := false, has_unsaved_changes := true }]).has_unsaved_changes ∧
    status_of [{ is_current := true, has_unsaved_changes := false },
        { is_current := false, has_unsaved_changes := false }] =
      status_of [{ is_current := false, has_unsaved_changes := false },
        { is_current := true, has_unsaved_changes := false }] := by
  refine ⟨(buffer_status_order_amended _ _ (by decide)).1,
    (buffer_status_order_amended _ _ (by decide)).2 (by decide)⟩

/-- C3: once the accumulated has_unsaved_changes becomes true somewhere in the
visited prefix, the run over the full address list coincides, result and
queried-instance trace alike, with the run over that prefix alone, so the step
is never invoked for any instance of the remainder; every queried instance
comes from the prefix. -/
theorem early_exit_no_later_queries (pre post : List (Option Instance))
    (ic : Bool)
    (h : try_fold_instances pre ((false, false) : Bool × Bool)
        buffer_status_step = some (ic, true)) :
    try_fold_go_trace buffer_status_step (pre ++ post) (false, false) false =
      try_fold_go_trace buffer_status_step pre (false, false) false ∧
    ∀ inst, inst ∈ (try_fold_go_trace buffer_status_step (pre ++ post)
        (false, false) false).2 → some inst ∈ pre := by
  have h1 := early_exit_aux post pre false false (ic, true) h rfl
  refine ⟨h1, fun inst hm => ?_⟩
  rw [h1] at hm
  exact try_fold_go_trace_mem buffer_status_step pre (false, false) false
    inst hm

/-- Reachable instance reporting a dirty, non-current buffer (C3 witness). -/
def unsaved_instance : Instance :=
  { status := Except.ok { is_current := false, has_unsaved_changes := true },
    selection := Except.ok none }

/-- Reachable instance reporting a clean, current buffer (C3 witness). -/
def clean_instance : Instance :=
  { status := Except.ok { is_current := true, has_unsaved_changes := false },
    selection := Except.ok none }

/-- Witness for C3: with a dirty first instance, appending a further reachable
instance changes neither the result nor the set of queried instances. -/
theorem early_exit_no_later_queries_witness :
    try_fold_go_trace buffer_status_step
        ([some unsaved_instance] ++ [some clean_instance]) (false, false)
        false =
      try_fold_go_trace buffer_status_step [some unsaved_instance]
        (false, false) false :=
  (early_exit_no_later_queries [some unsaved_instance] [some clean_instance]
    false (by decide)).1

/-- C5: with at least one collected selection the prompt-submitted handler
attaches, as additional context, each selection rendered as its source line
and fenced content block, joined in collection order by one blank line; with
zero selections it emits the plain proceed output, which carries no context
payload. -/
theorem prompt_submit_context (actions : EditorActions) :
    (actions.get_visual_selections = [] →
      handle_user_prompt_submit actions = HookOutput.new ∧
      HookOutput.new.hook_specific_output = none) ∧
    (actions.get_visual_selections ≠ [] →
      handle_user_prompt_submit actions =
        HookOutput.new.with_additional_context
          (String.intercalate "\n\n"
            (actions.get_visual_selections.map format_selection))) := by
  constructor
  · intro hsel
    refine ⟨?_, rfl⟩
    unfold handle_user_prompt_submit
    cases hh : actions.has_any
    · simp [hh]
    · simp [hh, hsel]
  · intro hsel
    have hany := selections_nonempty_has_any actions hsel
    unfold handle_user_prompt_submit
    simp [hany, List.isEmpty_iff, hsel]

/-- Neovim-side instance with one selection, for the C5 witness. -/
def selection_instance_a : Instance :=
  { status := Except.ok { is_current := false, has_unsaved_changes := false },
    selection :=
      Except.ok (some { file_path := "/a.rs", start_line := 1,
                        end_line := 2, content := "x" }) }

/-- VSCode-side instance with one selection, for the C5 witness. -/
def selection_instance_b : Instance :=
  { status := Except.ok { is_current := false, has_unsaved_changes := false },
    selection :=
      Except.ok (some { file_path := "/b.rs", start_line := 3,
                        end_line := 3, content := "y" }) }

/-- Actions with one selection per editor kind, for the C5 witness. -/
def selection_actions : EditorActions :=
  { neovim := some [some selection_instance_a],
    vscode := some [some selection_instance_b] }

/-- Witness for C5: two collected selections produce the two formatted blocks
in discovery order, separated by exactly one blank line. -/
theorem prompt_submit_context_witness :
    handle_user_prompt_submit selection_actions =
      HookOutput.new.with_additional_context
        ("[Selected from /a.rs:1-2]\n```\nx\n```\n\n[Selected from /b.rs:3-3]\n```\ny\n```") := by
  have h := (prompt_submit_context selection_actions).2 (by decide)
  exact h.trans (by decide)

/-- C8: socket-address computation for a fixed canonical working directory is
pure (equal inputs give equal paths), injective in the instance id for each
kind, and the two kinds never collide on the same id (the VSCode path carries
the extra literal tag). -/
theorem socket_path_pure_injective (cwd_hash : String) (p q : Nat) :
    (p = q → compute_neovim_socket_path cwd_hash p =
      compute_neovim_socket_path cwd_hash q) ∧
    (p = q → compute_vscode_socket_path cwd_hash p =
      compute_vscode_socket_path cwd_hash q) ∧
    (compute_neovim_socket_path cwd_hash p =
      compute_neovim_socket_path cwd_hash q → p = q) ∧
    (compute_vscode_socket_path cwd_hash p =
      compute_vscode_socket_path cwd_hash q → p = q) ∧
    compute_neovim_socket_path cwd_hash p ≠
      compute_vscode_socket_path cwd_hash p := by
  refine ⟨fun h => by rw [h], fun h => by rw [h], ?_, ?_, ?_⟩
  · intro he
    have hd := congrArg String.data he
    simp only [compute_neovim_socket_path, String.data_append,
      List.append_assoc] at hd
    have h1 := List.append_cancel_left hd
    have h2 := List.append_cancel_left h1
    have h3 := List.append_cancel_left h2
    exact toString_nat_data_inj (List.append_cancel_right h3)
  · intro he
    have hd := congrArg String.data he
    simp only [compute_vscode_socket_path, String.data_append,
      List.append_assoc] at hd
    have h1 := List.append_cancel_left hd
    have h2 := List.append_cancel_left h1
    have h3 := List.append_cancel_left h2
    exact toString_nat_data_inj (List.append_cancel_right h3)
  · intro he
    have hl := congrArg String.length he
    simp only [compute_neovim_socket_path, compute_vscode_socket_path,
      String.length_append] at hl
    have e1 : ("/tmp/" : String).length = 5 := rfl
    have e2 : ("-" : String).length = 1 := rfl
    have e3 : ("-vscode-" : String).length = 8 := rfl
    have e4 : (".sock" : String).length = 5 := rfl
    rw [e1, e2, e3, e4] at hl
    omega

/-- Witness for C8: determinism and kind-separation at a concrete hash and
id. -/
theorem socket_path_pure_injective_witness :
    compute_neovim_socket_path "abcd" 7 =
      compute_neovim_socket_path "abcd" 7 ∧
    (7 : Nat) = 7 ∧
    compute_neovim_socket_path "abcd" 7 ≠
      compute_vscode_socket_path "abcd" 7 := by
  have h := socket_path_pure_injective "abcd" 7 7
  exact ⟨h.1 rfl, h.2.2.1 rfl, h.2.2.2.2⟩

/-- C9: Neovim discovery never returns a name carrying the VSCode tag, VSCode
discovery only returns names carrying it, hence the two discovery sets are
disjoint; and an entry that no longer exists at filter time is excluded from
both rather than causing an error. -/
theorem discovery_kind_disjoint (cwd_hash : String) (d : TmpDir) :
    (∀ name ∈ find_neovim_sockets cwd_hash d, has_vscode_tag name = false) ∧
    (∀ name ∈ find_vscode_sockets cwd_hash d, has_vscode_tag name = true) ∧
    (∀ name ∈ find_neovim_sockets cwd_hash d,
      name ∉ find_vscode_sockets cwd_hash d) ∧
    (∀ name, d.still_exists name = false →
      name ∉ find_neovim_sockets cwd_hash d ∧
      name ∉ find_vscode_sockets cwd_hash d) := by
  have hn : ∀ name ∈ find_neovim_sockets cwd_hash d,
      d.still_exists name = true ∧ has_vscode_tag name = false := by
    intro name hmem
    unfold find_neovim_sockets at hmem
    rw [List.mem_filter] at hmem
    obtain ⟨h1, h2⟩ := hmem
    simp only [Bool.and_eq_true] at h2
    refine ⟨h2.1, ?_⟩
    have := h2.2
    simpa using this
  have hv : ∀ name ∈ find_vscode_sockets cwd_hash d,
      d.still_exists name = true ∧ has_vscode_tag name = true := by
    intro name hmem
    unfold find_vscode_sockets at hmem
    rw [List.mem_filter] at hmem
    obtain ⟨h1, h2⟩ := hmem
    rw [List.mem_filter] at h1
    exact ⟨h2, vscode_glob_tag h1.2⟩
  refine ⟨fun name hmem => (hn name hmem).2,
    fun name hmem => (hv name hmem).2, ?_, ?_⟩
  · intro name hmem hmem2
    have hfalse := (hn name hmem).2
    rw [(hv name hmem2).2] at hfalse
    cases hfalse
  · intro name hne
    constructor
    · intro hmem
      rw [(hn name hmem).1] at hne
      cases hne
    · intro hmem
      rw [(hv name hmem).1] at hne
      cases hne

/-- A /tmp state for the C9 witness: one Neovim socket, one VSCode socket and
one entry that vanished between glob and the existence check. -/
def demo_dir : TmpDir :=
  { entries := ["h-1.sock", "h-vscode-2.sock", "h-gone.sock"],
    still_exists := fun s => s != "h-gone.sock" }

/-- Witness for C9 on the concrete directory state: the discovered Neovim
socket has no VSCode tag, the discovered VSCode socket has one, and the
vanished entry is dropped. -/
theorem discovery_kind_disjoint_witness :
    has_vscode_tag "h-1.sock" = false ∧
    has_vscode_tag "h-vscode-2.sock" = true ∧
    "h-gone.sock" ∉ find_neovim_sockets "h" demo_dir := by
  have h := discovery_kind_disjoint "h" demo_dir
  exact ⟨h.1 "h-1.sock" (by decide),
    h.2.1 "h-vscode-2.sock" (by decide),
    (h.2.2.2 "h-gone.sock" (by decide)).1⟩
